import Mathlib

/-!
Shallow embedding of the ScheduledMessengerBot source (src/telegram_bot.py).

The program keeps process-wide mutable state: a message template string, an
optional increment counter and an optional decrement counter, an optional
scheduled-job handle, and the time of day for the daily message.  Handlers
(set_message, set_time, confirm, stop_scheduled_message, trigger_job, cancel,
create_scheduled_message) read and update that state and produce replies.

Python regular expressions over the two placeholder patterns
(brace, kind name, comma, optional whitespace, digits, closing brace) are
embedded as explicit character-list scanners below; re.sub is the
left-to-right non-overlapping substitution reSub, re.search is reSearch.
Machine-level details that the claims do not touch (the telegram transport,
logging, the event loop) are outside the model; delivery is modelled as the
list of messages a handler hands to the gateway.
-/

namespace TelegramBot

/-- The single allow-listed username (ALLOWED_USERNAME in the source). -/
def ALLOWED_USERNAME : String := "jaredtanzd"

/-- Opening brace character of a placeholder. -/
def lbrace : Char := Char.ofNat 123

/-- Closing brace character of a placeholder. -/
def rbrace : Char := Char.ofNat 125

/-- ASCII decimal digit test: the regex digit class restricted to ASCII. -/
def isDigitC (c : Char) : Bool := 48 ≤ c.toNat && c.toNat ≤ 57

/-- ASCII whitespace test: the regex whitespace class restricted to ASCII. -/
def isPySpace (c : Char) : Bool :=
  c.toNat = 32 || c.toNat = 9 || c.toNat = 10 || c.toNat = 13 || c.toNat = 11 || c.toNat = 12

/-- Numeric value of a digit string, base 10, as int() computes it on digits. -/
def digitsToNat (ds : List Char) : Nat := ds.foldl (fun a c => 10 * a + (c.toNat - 48)) 0

/-- Drops leading regex-whitespace characters. -/
def skipWs : List Char → List Char
  | [] => []
  | c :: cs => if isPySpace c then skipWs cs else c :: cs

/-- Splits a leading run of digits from the rest of the characters. -/
def grabDigits : List Char → List Char × List Char
  | [] => ([], [])
  | c :: cs =>
    if isDigitC c then
      let p := grabDigits cs
      (c :: p.1, p.2)
    else ([], c :: cs)

/-- Matches a literal character-list prefix, returning the remainder on success. -/
def dropPre : List Char → List Char → Option (List Char)
  | [], cs => some cs
  | _ :: _, [] => none
  | k :: ks, c :: cs => if c = k then dropPre ks cs else none

/-- Matches the tail of a placeholder after the comma: optional regex whitespace,
one or more digits, then the closing brace; returns the digit value and the
characters after the match. -/
def matchNumTail (cs : List Char) : Option (Nat × List Char) :=
  if (grabDigits (skipWs cs)).1.isEmpty then none
  else
    match (grabDigits (skipWs cs)).2 with
    | c :: r => if c = rbrace then some (digitsToNat (grabDigits (skipWs cs)).1, r) else none
    | [] => none

/-- Attempts to match one placeholder of kind `key` at the head of the character
list: opening brace, the key, a comma, whitespace, digits, closing brace.
On success returns the numeric argument and the characters after the match. -/
def matchPh (key : List Char) : List Char → Option (Nat × List Char)
  | [] => none
  | c :: cs =>
    if c = lbrace then
      match dropPre (key ++ [',']) cs with
      | some cs2 => matchNumTail cs2
      | none => none
    else none

/-- Fuel-indexed engine of re.sub over one placeholder kind: scans left to right,
replacing each non-overlapping match of the pattern with `repl` and continuing
after the matched span. -/
def reSubAux (key repl : List Char) : Nat → List Char → List Char
  | _, [] => []
  | 0, cs => cs
  | fuel + 1, c :: cs =>
    match matchPh key (c :: cs) with
    | some (_, rest) => repl ++ reSubAux key repl fuel rest
    | none => c :: reSubAux key repl fuel cs

/-- Embedding of re.sub for one placeholder kind: replaces every left-to-right
non-overlapping occurrence of the pattern with `repl`. -/
def reSub (key repl cs : List Char) : List Char := reSubAux key repl cs.length cs

/-- Fuel-indexed count of the left-to-right non-overlapping pattern occurrences
that the substitution scan finds. -/
def reCountAux (key : List Char) : Nat → List Char → Nat
  | _, [] => 0
  | 0, _ => 0
  | fuel + 1, c :: cs =>
    match matchPh key (c :: cs) with
    | some (_, rest) => reCountAux key fuel rest + 1
    | none => reCountAux key fuel cs

/-- Number of left-to-right non-overlapping occurrences of the pattern. -/
def reCount (key cs : List Char) : Nat := reCountAux key cs.length cs

/-- Embedding of re.search for one placeholder kind: numeric argument of the
first (leftmost) occurrence of the pattern, if any. -/
def reSearch (key : List Char) : List Char → Option Nat
  | [] => none
  | c :: cs =>
    match matchPh key (c :: cs) with
    | some (n, _) => some n
    | none => reSearch key cs

/-- A character list that contains no opening brace. -/
def braceFree (cs : List Char) : Bool := cs.all (fun c => !(c == lbrace))

/-- One placeholder instance of kind `key`: opening brace, key, comma, a run of
regex whitespace `ws`, a nonempty run of digits `ds`, closing brace. -/
def phInst (key ws ds : List Char) : List Char :=
  lbrace :: (key ++ (',' :: (ws ++ (ds ++ [rbrace]))))

/-- Decomposition of a template into literal chunks and placeholder instances of
one kind: each entry is a brace-free prefix followed by one instance, and the
whole list is followed by a brace-free remainder. -/
def chunksText (key : List Char) : List (List Char × List Char × List Char) → List Char → List Char
  | [], last => last
  | (pre, ws, ds) :: t, last => pre ++ (phInst key ws ds ++ chunksText key t last)

/-- Same decomposition with every placeholder instance replaced by `repl`. -/
def chunksRepl (repl : List Char) : List (List Char × List Char × List Char) → List Char → List Char
  | [], last => last
  | (pre, _, _) :: t, last => pre ++ (repl ++ chunksRepl repl t last)

/-- Well-formedness of a chunk decomposition: prefixes brace-free, whitespace
runs whitespace, digit runs nonempty digits. -/
def chunksWF (chs : List (List Char × List Char × List Char)) : Prop :=
  ∀ x ∈ chs, braceFree x.1 = true ∧ (∀ c ∈ x.2.1, isPySpace c = true) ∧
    x.2.2 ≠ [] ∧ (∀ c ∈ x.2.2, isDigitC c = true)

/-- Decimal digit character for a remainder in 0..9, as str() prints it. -/
def digitCh (r : Nat) : Char :=
  if r = 0 then '0' else if r = 1 then '1' else if r = 2 then '2' else if r = 3 then '3'
  else if r = 4 then '4' else if r = 5 then '5' else if r = 6 then '6' else if r = 7 then '7'
  else if r = 8 then '8' else '9'

/-- Fuel-indexed decimal printer, most significant digit first. -/
def natStrAux : Nat → Nat → List Char → List Char
  | 0, _, acc => acc
  | fuel + 1, n, acc =>
    if n / 10 = 0 then digitCh (n % 10) :: acc
    else natStrAux fuel (n / 10) (digitCh (n % 10) :: acc)

/-- Decimal representation of a natural number, as Python str() prints it. -/
def natStr (n : Nat) : String := ⟨natStrAux (n + 1) n []⟩

/-- Decimal representation of an integer, as Python str() prints it. -/
def intStr : Int → String
  | Int.ofNat m => natStr m
  | Int.negSucc m => "-" ++ natStr (m + 1)

/-- Key of the increment placeholder pattern. -/
def incKey : List Char := "increment".toList

/-- Key of the decrement placeholder pattern. -/
def decKey : List Char := "decrement".toList

/-- A scheduled job handle: the run_daily registration with its wall-clock time
and the chat the job is bound to. -/
structure Job where
  id : Nat
  time : Option (Int × Int)
  chat_id : Int
deriving DecidableEq

/-- The process-wide mutable state of the bot module: the scheduled_job handle,
the list of jobs currently registered in the job queue, and the globals
message_template, message_time, increment_counter, decrement_counter.
nextJobId supplies fresh handles for newly registered jobs. -/
structure BotState where
  scheduled_job : Option Job
  jobs : List Job
  message_template : String
  message_time : Option (Int × Int)
  increment_counter : Option Int
  decrement_counter : Option Int
  nextJobId : Nat
deriving DecidableEq

/-- State at module import: no job, empty template, no time, no counters. -/
def initialState : BotState :=
  { scheduled_job := none, jobs := [], message_template := "", message_time := none,
    increment_counter := none, decrement_counter := none, nextJobId := 0 }

/-- One message handed to the gateway by bot.send_message. -/
structure SentMsg where
  chat_id : Int
  text : String
deriving DecidableEq

/-- Result of a conversation handler: the new state, the replies sent to the
invoking chat, and the conversation-state integer the handler returns. -/
structure ConvResult where
  state : BotState
  replies : List String
  next : Int
deriving DecidableEq

/-- Result of a plain command handler (stop_scheduled_message, trigger_job):
the new state, the replies, and the scheduled messages delivered. -/
structure CmdResult where
  state : BotState
  replies : List String
  sent : List SentMsg
deriving DecidableEq

/-- Conversation-state constant SET_MESSAGE. -/
def SET_MESSAGE : Int := 0

/-- Conversation-state constant SET_TIME. -/
def SET_TIME : Int := 1

/-- Conversation-state constant CONFIRM. -/
def CONFIRM : Int := 2

/-- ConversationHandler.END. -/
def END_CONV : Int := -2

/-- Rejection reply sent to unauthorized senders. -/
def AUTH_REJECT : String := "You are not authorized to use this bot."

/-- Embedding of check_user: compares the sender username with the allow-list. -/
def check_user (username : String) : Bool := username == ALLOWED_USERNAME

/-- Embedding of parse_custom_message: substitutes the current counter values
for the placeholder patterns; an inactive (None) counter leaves its pattern
untouched. -/
def parse_custom_message (st : BotState) (template : String) : String :=
  let m1 : String :=
    match st.increment_counter with
    | some v => ⟨reSub incKey (intStr v).toList template.toList⟩
    | none => template
  match st.decrement_counter with
  | some v => ⟨reSub decKey (intStr v).toList m1.toList⟩
  | none => m1

/-- Embedding of update_counters: increments the increment counter and
decrements the decrement counter, when active. -/
def update_counters (st : BotState) : BotState :=
  let st1 :=
    match st.increment_counter with
    | some v => { st with increment_counter := some (v + 1) }
    | none => st
  match st1.decrement_counter with
  | some v => { st1 with decrement_counter := some (v - 1) }
  | none => st1

/-- Iterated update_counters: N successive firings' counter advances. -/
def advanceN : Nat → BotState → BotState
  | 0, st => st
  | n + 1, st => advanceN n (update_counters st)

/-- Embedding of create_scheduled_message: the conversation entry point. -/
def create_scheduled_message (username : String) (st : BotState) : ConvResult :=
  if !check_user username then ⟨st, [AUTH_REJECT], END_CONV⟩
  else
    ⟨st, ["Let\x27s create a scheduled message. First, please enter the custom message you want to send daily."],
     SET_MESSAGE⟩

/-- Embedding of set_message: stores the received text as the template and
seeds the counters from the first occurrence of each placeholder pattern;
a pattern that is absent leaves the corresponding counter untouched. -/
def set_message (username : String) (text : String) (st : BotState) : ConvResult :=
  if !check_user username then ⟨st, [AUTH_REJECT], END_CONV⟩
  else
    let inc :=
      match reSearch incKey text.toList with
      | some n => some (Int.ofNat n)
      | none => st.increment_counter
    let dec :=
      match reSearch decKey text.toList with
      | some n => some (Int.ofNat n)
      | none => st.decrement_counter
    ⟨{ st with message_template := text, increment_counter := inc, decrement_counter := dec },
     ["Message set. Now, please specify the time for the daily message (in 24-hour format, e.g., 14:30 for 2:30 PM)."],
     SET_TIME⟩

/-- Splits a character list at every colon, as text.split does for a one
character separator. -/
def splitOnColon : List Char → List (List Char)
  | [] => [[]]
  | c :: rest =>
    if c = ':' then [] :: splitOnColon rest
    else
      match splitOnColon rest with
      | h :: t => (c :: h) :: t
      | [] => [[c]]

/-- Strips leading and trailing regex whitespace, as int() does before parsing. -/
def pyStrip (cs : List Char) : List Char := ((skipWs ((skipWs cs).reverse)).reverse)

/-- Embedding of Python int() on a stripped character list: an optional sign
followed by a nonempty run of decimal digits. (int() additionally accepts
underscore digit grouping, which no time string uses; not modelled.) -/
def pyIntCore : List Char → Option Int
  | '-' :: ds => if !ds.isEmpty && ds.all isDigitC then some (-(digitsToNat ds : Int)) else none
  | '+' :: ds => if !ds.isEmpty && ds.all isDigitC then some ((digitsToNat ds : Int)) else none
  | ds => if !ds.isEmpty && ds.all isDigitC then some ((digitsToNat ds : Int)) else none

/-- Python int() applied to a field of the time string. -/
def pyInt (cs : List Char) : Option Int := pyIntCore (pyStrip cs)

/-- The time-parsing chain of set_time: split the text on colons, convert both
fields with int(), then construct datetime.time, which raises ValueError
unless the hour is in 0..23 and the minute in 0..59.  Returns the parsed
pair exactly when no ValueError is raised. -/
def parseTimeText (text : String) : Option (Int × Int) :=
  match (splitOnColon text.toList).map pyInt with
  | [some h, some m] =>
    if 0 ≤ h && h ≤ 23 && 0 ≤ m && m ≤ 59 then some (h, m) else none
  | _ => none

/-- Zero-padded two-digit rendering used by the confirmation prompt. -/
def pad2 (n : Int) : String := if n < 10 then "0" ++ intStr n else intStr n

/-- The confirmation prompt of set_time, with the preview embedded. -/
def timePrompt (h m : Int) (preview : String) : String :=
  "Your message will be sent daily at " ++ pad2 h ++ ":" ++ pad2 m ++
    " Singapore time.\n\nHere\x27s a preview of your message:\n\n" ++ preview ++
    "\n\nIs this correct? (Yes/No)"

/-- Embedding of set_time: on a parseable valid time, stores it, previews the
message and advances to CONFIRM; on ValueError, re-prompts and stays in
SET_TIME. -/
def set_time (username : String) (text : String) (st : BotState) : ConvResult :=
  if !check_user username then ⟨st, [AUTH_REJECT], END_CONV⟩
  else
    match parseTimeText text with
    | some (h, m) =>
      ⟨{ st with message_time := some (h, m) },
       [timePrompt h m (parse_custom_message st st.message_template)], CONFIRM⟩
    | none => ⟨st, ["Invalid time format. Please use HH:MM (24-hour format)."], SET_TIME⟩

/-- ASCII lower-casing of the confirmation text, as text.lower() computes it. -/
def lowerStr (s : String) : String := ⟨s.toList.map Char.toLower⟩

/-- Embedding of confirm: on a case-insensitive yes, removes the old job from
the queue if a handle exists, registers a new daily job bound to the invoking
chat, and ends the conversation; on no, restarts at SET_MESSAGE; otherwise
re-prompts. -/
def confirm (username : String) (text : String) (chat : Int) (st : BotState) : ConvResult :=
  if !check_user username then ⟨st, [AUTH_REJECT], END_CONV⟩
  else if lowerStr text == "yes" then
    let removed :=
      match st.scheduled_job with
      | some j => st.jobs.filter (fun x => x.id ≠ j.id)
      | none => st.jobs
    let newJob : Job := ⟨st.nextJobId, st.message_time, chat⟩
    let st2 := { st with scheduled_job := some newJob, jobs := removed ++ [newJob], nextJobId := st.nextJobId + 1 }
    ⟨st2, ["Scheduled message has been set up successfully!"], END_CONV⟩
  else if lowerStr text == "no" then
    ⟨st, ["Let\x27s start over. Please enter your custom message."], SET_MESSAGE⟩
  else
    ⟨st, ["Please respond with \x27Yes\x27 or \x27No\x27."], CONFIRM⟩

/-- Embedding of send_scheduled_message: advances the counters, renders the
current template against the post-advance counters, and hands exactly one
message to the gateway.  jobChat is context.job.chat_id when fired by the
job queue and none on a manual trigger, in which case the invoking chat
(context._chat_id) is the target. -/
def send_scheduled_message (st : BotState) (jobChat : Option Int) (ctxChat : Int) :
    BotState × SentMsg :=
  let st1 := update_counters st
  let message_to_send := parse_custom_message st1 st1.message_template
  let chat := match jobChat with | some c => c | none => ctxChat
  (st1, ⟨chat, message_to_send⟩)

/-- Embedding of stop_scheduled_message: removes the active job if present and
clears the handle; otherwise reports that none is active. -/
def stop_scheduled_message (username : String) (st : BotState) : CmdResult :=
  if !check_user username then ⟨st, [AUTH_REJECT], []⟩
  else
    match st.scheduled_job with
    | some j =>
      ⟨{ st with scheduled_job := none, jobs := st.jobs.filter (fun x => x.id ≠ j.id) },
       ["Scheduled message has been stopped."], []⟩
    | none => ⟨st, ["There is no active scheduled message."], []⟩

/-- Embedding of cancel: the conversation fallback. -/
def cancel (username : String) (st : BotState) : ConvResult :=
  if !check_user username then ⟨st, [AUTH_REJECT], END_CONV⟩
  else ⟨st, ["Operation cancelled."], END_CONV⟩

/-- Embedding of trigger_job: runs send_scheduled_message with no job context,
so the message goes to the invoking chat, then reports completion. -/
def trigger_job (username : String) (chat : Int) (st : BotState) : CmdResult :=
  if !check_user username then ⟨st, [AUTH_REJECT], []⟩
  else
    let r := send_scheduled_message st none chat
    ⟨r.1, ["Scheduled job triggered manually."], [r.2]⟩

/-- A real firing of the daily job: send_scheduled_message with the job context
present, targeting the chat the job is bound to. -/
def fire_daily (st : BotState) (j : Job) : BotState × SentMsg :=
  send_scheduled_message st (some j.chat_id) j.chat_id

/-- A placeholder written as a string: opening brace, key, comma, one space,
the decimal seed, closing brace. -/
def phText (key : String) (n : Nat) : String := ⟨phInst key.toList [' '] (natStr n).toList⟩

/-- The end-to-end example template of the spec: Day followed by an increment
placeholder seeded at 1. -/
def demoTemplate : String := "Day " ++ phText "increment" 1

/-- State after the full setup conversation of the end-to-end example: template
entered, time 09:00 set, confirmed with yes from chat 5. -/
def demoAfterConfirm : BotState :=
  (confirm ALLOWED_USERNAME "yes" 5
    (set_time ALLOWED_USERNAME "09:00"
      (set_message ALLOWED_USERNAME demoTemplate initialState).state).state).state

/-- A sample installed job bound to chat 5 at 09:00. -/
def jobA : Job := ⟨0, some (9, 0), 5⟩

/-- A state with a job installed and active template A. -/
def stWithJob : BotState :=
  { scheduled_job := some jobA, jobs := [jobA], message_template := "A",
    message_time := some (9, 0), increment_counter := none, decrement_counter := none,
    nextJobId := 1 }

/-- A state with a stale active increment counter and no job. -/
def stInc5 : BotState := { initialState with increment_counter := some 5 }

/-- The at-most-one-job invariant: the job queue holds exactly the jobs the
scheduled_job handle refers to. -/
def oneJobInv (st : BotState) : Prop := st.jobs = st.scheduled_job.toList

/-- One conditional substitution pass of parse_custom_message: substitutes the
counter value when the counter is active and leaves the text unchanged when it
is None. -/
def reSubOpt (key : List Char) (o : Option Int) (cs : List Char) : List Char :=
  match o with
  | some v => reSub key (intStr v).toList cs
  | none => cs

/-- A segment of a template containing placeholders of both kinds: a literal
run of characters, an increment placeholder instance, or a decrement
placeholder instance (each instance carrying its whitespace and digit runs). -/
inductive TmplSeg where
  | lit (cs : List Char) : TmplSeg
  | incPh (ws ds : List Char) : TmplSeg
  | decPh (ws ds : List Char) : TmplSeg

/-- Wellformedness of one segment: literals are brace-free; placeholder
instances carry a whitespace run and a nonempty digit run. -/
def segWF : TmplSeg → Bool
  | TmplSeg.lit cs => braceFree cs
  | TmplSeg.incPh ws ds => ws.all isPySpace && !ds.isEmpty && ds.all isDigitC
  | TmplSeg.decPh ws ds => ws.all isPySpace && !ds.isEmpty && ds.all isDigitC

/-- Wellformedness of a whole segment decomposition. -/
def segsWFb (segs : List TmplSeg) : Bool := segs.all segWF

/-- The template text a segment decomposition denotes. -/
def segsText : List TmplSeg → List Char
  | [] => []
  | TmplSeg.lit cs :: t => cs ++ segsText t
  | TmplSeg.incPh ws ds :: t => phInst incKey ws ds ++ segsText t
  | TmplSeg.decPh ws ds :: t => phInst decKey ws ds ++ segsText t

/-- The render of a segment decomposition under the given counter states:
literal text passes through unchanged; a placeholder instance whose counter is
active becomes the decimal string of the counter value; an instance whose
counter is None stays in the output as its own literal text. -/
def segsRender (oi od : Option Int) : List TmplSeg → List Char
  | [] => []
  | TmplSeg.lit cs :: t => cs ++ segsRender oi od t
  | TmplSeg.incPh ws ds :: t =>
    (match oi with
     | some v => (intStr v).toList
     | none => phInst incKey ws ds) ++ segsRender oi od t
  | TmplSeg.decPh ws ds :: t =>
    (match od with
     | some v => (intStr v).toList
     | none => phInst decKey ws ds) ++ segsRender oi od t

/-- One substitution pass over a segment decomposition: instances of the chosen
kind (true for increment, false for decrement) become literals holding the
replacement; every other segment is kept. -/
def segsSub (forInc : Bool) (repl : List Char) : List TmplSeg → List TmplSeg
  | [] => []
  | TmplSeg.lit cs :: t => TmplSeg.lit cs :: segsSub forInc repl t
  | TmplSeg.incPh ws ds :: t =>
    (if forInc then TmplSeg.lit repl else TmplSeg.incPh ws ds) :: segsSub forInc repl t
  | TmplSeg.decPh ws ds :: t =>
    (if forInc then TmplSeg.decPh ws ds else TmplSeg.lit repl) :: segsSub forInc repl t

/-- A mixed demonstration template: literal text, an increment instance, more
literal text, a decrement instance. -/
def demoSegs : List TmplSeg :=
  [TmplSeg.lit "x=".toList, TmplSeg.incPh [' '] ['1'],
   TmplSeg.lit " y=".toList, TmplSeg.decPh [' '] ['2']]

theorem skipWs_length : ∀ cs : List Char, (skipWs cs).length ≤ cs.length := by
  intro cs
  induction cs with
  | nil => simp [skipWs]
  | cons c cs ih =>
    simp only [skipWs]
    split
    · exact Nat.le_succ_of_le ih
    · simp

theorem grabDigits_snd_length : ∀ cs : List Char, (grabDigits cs).2.length ≤ cs.length := by
  intro cs
  induction cs with
  | nil => simp [grabDigits]
  | cons c cs ih =>
    simp only [grabDigits]
    split
    · exact Nat.le_succ_of_le ih
    · simp

theorem dropPre_length : ∀ ks cs r : List Char, dropPre ks cs = some r → r.length ≤ cs.length := by
  intro ks
  induction ks with
  | nil => intro cs r h; simp [dropPre] at h; simp [h]
  | cons k ks ih =>
    intro cs r h
    cases cs with
    | nil => simp [dropPre] at h
    | cons c cs =>
      simp only [dropPre] at h
      split at h
      · exact Nat.le_succ_of_le (ih cs r h)
      · exact absurd h (by simp)

theorem matchNumTail_length {cs r : List Char} {n : Nat}
    (h : matchNumTail cs = some (n, r)) : r.length < cs.length := by
  have hle2 : (grabDigits (skipWs cs)).2.length ≤ cs.length :=
    le_trans (grabDigits_snd_length _) (skipWs_length _)
  unfold matchNumTail at h
  split at h
  · exact absurd h (by simp)
  · split at h
    · rename_i c r' heq
      split at h
      · injection h with h3
        have hr : r' = r := congrArg Prod.snd h3
        subst hr
        rw [heq] at hle2
        simp at hle2
        omega
      · exact absurd h (by simp)
    · exact absurd h (by simp)

theorem matchPh_length {key cs r : List Char} {n : Nat}
    (h : matchPh key cs = some (n, r)) : r.length < cs.length := by
  cases cs with
  | nil => simp [matchPh] at h
  | cons c cs =>
    simp only [matchPh] at h
    split at h
    · split at h
      · rename_i cs2 heq
        have h1 := matchNumTail_length h
        have h2 := dropPre_length _ _ _ heq
        calc r.length < cs2.length := h1
          _ ≤ cs.length := h2
          _ < (c :: cs).length := by simp
      · exact absurd h (by simp)
    · exact absurd h (by simp)

theorem reSubAux_fuel (key repl : List Char) :
    ∀ f g cs, cs.length ≤ f → cs.length ≤ g →
      reSubAux key repl f cs = reSubAux key repl g cs := by
  intro f
  induction f with
  | zero =>
    intro g cs hf _
    have : cs = [] := List.length_eq_zero.mp (Nat.le_zero.mp hf)
    subst this
    cases g <;> rfl
  | succ f ih =>
    intro g cs hf hg
    cases cs with
    | nil => cases g <;> rfl
    | cons c cs =>
      cases g with
      | zero => simp at hg
      | succ g =>
        simp only [reSubAux]
        cases h : matchPh key (c :: cs) with
        | some p =>
          obtain ⟨n, rest⟩ := p
          have hlen := matchPh_length h
          have h1 : rest.length ≤ f := by
            have := Nat.lt_of_lt_of_le hlen hf
            omega
          have h2 : rest.length ≤ g := by
            have := Nat.lt_of_lt_of_le hlen hg
            omega
          exact congrArg (fun x => repl ++ x) (ih g rest h1 h2)
        | none =>
          have h1 : cs.length ≤ f := by simp at hf; omega
          have h2 : cs.length ≤ g := by simp at hg; omega
          exact congrArg (fun x => c :: x) (ih g cs h1 h2)

theorem reCountAux_fuel (key : List Char) :
    ∀ f g cs, cs.length ≤ f → cs.length ≤ g →
      reCountAux key f cs = reCountAux key g cs := by
  intro f
  induction f with
  | zero =>
    intro g cs hf _
    have : cs = [] := List.length_eq_zero.mp (Nat.le_zero.mp hf)
    subst this
    cases g <;> rfl
  | succ f ih =>
    intro g cs hf hg
    cases cs with
    | nil => cases g <;> rfl
    | cons c cs =>
      cases g with
      | zero => simp at hg
      | succ g =>
        simp only [reCountAux]
        cases h : matchPh key (c :: cs) with
        | some p =>
          obtain ⟨n, rest⟩ := p
          have hlen := matchPh_length h
          have h1 : rest.length ≤ f := by
            have := Nat.lt_of_lt_of_le hlen hf
            omega
          have h2 : rest.length ≤ g := by
            have := Nat.lt_of_lt_of_le hlen hg
            omega
          exact congrArg (fun x => x + 1) (ih g rest h1 h2)
        | none =>
          have h1 : cs.length ≤ f := by simp at hf; omega
          have h2 : cs.length ≤ g := by simp at hg; omega
          exact ih g cs h1 h2

theorem reSub_nil (key repl : List Char) : reSub key repl [] = [] := rfl

theorem reSub_cons_match {key repl : List Char} {c : Char} {cs rest : List Char} {n : Nat}
    (h : matchPh key (c :: cs) = some (n, rest)) :
    reSub key repl (c :: cs) = repl ++ reSub key repl rest := by
  have hlen := matchPh_length h
  show reSubAux key repl (c :: cs).length (c :: cs) = _
  simp only [List.length_cons, reSubAux, h]
  rw [reSubAux_fuel key repl cs.length rest.length rest (by simp at hlen; omega) (le_refl _)]
  rfl

theorem reSub_cons_none {key repl : List Char} {c : Char} {cs : List Char}
    (h : matchPh key (c :: cs) = none) :
    reSub key repl (c :: cs) = c :: reSub key repl cs := by
  show reSubAux key repl (c :: cs).length (c :: cs) = _
  simp only [List.length_cons, reSubAux, h]
  rfl

theorem reCount_nil (key : List Char) : reCount key [] = 0 := rfl

theorem reCount_cons_match {key : List Char} {c : Char} {cs rest : List Char} {n : Nat}
    (h : matchPh key (c :: cs) = some (n, rest)) :
    reCount key (c :: cs) = reCount key rest + 1 := by
  have hlen := matchPh_length h
  show reCountAux key (c :: cs).length (c :: cs) = _
  simp only [List.length_cons, reCountAux, h]
  rw [reCountAux_fuel key cs.length rest.length rest (by simp at hlen; omega) (le_refl _)]
  rfl

theorem reCount_cons_none {key : List Char} {c : Char} {cs : List Char}
    (h : matchPh key (c :: cs) = none) :
    reCount key (c :: cs) = reCount key cs := by
  show reCountAux key (c :: cs).length (c :: cs) = _
  simp only [List.length_cons, reCountAux, h]
  rfl

theorem matchPh_not_lbrace {key : List Char} {c : Char} {cs : List Char} (h : c ≠ lbrace) :
    matchPh key (c :: cs) = none := by
  simp only [matchPh]
  rw [if_neg h]

theorem braceFree_cons {c : Char} {cs : List Char} (hc : c ≠ lbrace)
    (hcs : braceFree cs = true) : braceFree (c :: cs) = true := by
  simp [braceFree] at hcs ⊢
  exact ⟨hc, hcs⟩

theorem reSub_braceFree {key repl : List Char} : ∀ cs : List Char,
    braceFree cs = true → reSub key repl cs = cs := by
  intro cs
  induction cs with
  | nil => intro _; rfl
  | cons c cs ih =>
    intro h
    simp [braceFree] at h
    rw [reSub_cons_none (matchPh_not_lbrace h.1)]
    rw [ih (by simp [braceFree]; exact h.2)]

theorem reSub_of_count_zero_aux {key repl : List Char} :
    ∀ n (cs : List Char), cs.length ≤ n → reCount key cs = 0 → reSub key repl cs = cs := by
  intro n
  induction n with
  | zero =>
    intro cs h _
    have : cs = [] := List.length_eq_zero.mp (Nat.le_zero.mp h)
    subst this
    rfl
  | succ n ih =>
    intro cs hlen h0
    cases cs with
    | nil => rfl
    | cons c cs =>
      cases hm : matchPh key (c :: cs) with
      | some p =>
        obtain ⟨k, rest⟩ := p
        rw [reCount_cons_match hm] at h0
        omega
      | none =>
        rw [reCount_cons_none hm] at h0
        rw [reSub_cons_none hm, ih cs (by simp at hlen; omega) h0]

theorem reSub_of_count_zero {key repl cs : List Char} (h : reCount key cs = 0) :
    reSub key repl cs = cs := reSub_of_count_zero_aux cs.length cs (le_refl _) h

theorem skipWs_append {ws xs : List Char} (h : ∀ c ∈ ws, isPySpace c = true) :
    skipWs (ws ++ xs) = skipWs xs := by
  induction ws with
  | nil => rfl
  | cons c ws ih =>
    simp only [List.cons_append, skipWs]
    rw [if_pos (h c (by simp))]
    exact ih (fun c hc => h c (by simp [hc]))

theorem skipWs_not_space {x : Char} {xs : List Char} (h : isPySpace x = false) :
    skipWs (x :: xs) = x :: xs := by
  simp only [skipWs]
  rw [if_neg (by simp [h])]

theorem grabDigits_append {ds : List Char} {x : Char} {xs : List Char}
    (hds : ∀ c ∈ ds, isDigitC c = true) (hx : isDigitC x = false) :
    grabDigits (ds ++ x :: xs) = (ds, x :: xs) := by
  induction ds with
  | nil =>
    simp only [List.nil_append, grabDigits]
    rw [if_neg (by simp [hx])]
  | cons c ds ih =>
    simp only [List.cons_append, grabDigits]
    rw [if_pos (hds c (by simp))]
    simp only [List.append_eq]
    rw [ih (fun c hc => hds c (by simp [hc]))]

theorem dropPre_append : ∀ ks xs cs : List Char, dropPre (ks ++ xs) (ks ++ cs) = dropPre xs cs := by
  intro ks
  induction ks with
  | nil => intro xs cs; rfl
  | cons k ks ih =>
    intro xs cs
    simp only [List.cons_append, dropPre, if_true]
    simp only [List.append_eq]
    exact ih xs cs

theorem digit_not_space {c : Char} (h : isDigitC c = true) : isPySpace c = false := by
  simp [isDigitC] at h
  simp [isPySpace]
  omega

theorem isDigitC_rbrace : isDigitC rbrace = false := by decide

theorem matchNumTail_inst {ws ds : List Char} (tail : List Char)
    (hws : ∀ c ∈ ws, isPySpace c = true)
    (hne : ds ≠ []) (hds : ∀ c ∈ ds, isDigitC c = true) :
    matchNumTail (ws ++ (ds ++ (rbrace :: tail))) = some (digitsToNat ds, tail) := by
  have hskip : skipWs (ws ++ (ds ++ (rbrace :: tail))) = ds ++ rbrace :: tail := by
    rw [skipWs_append hws]
    cases ds with
    | nil => exact absurd rfl hne
    | cons d ds' =>
      simp only [List.cons_append]
      exact skipWs_not_space (digit_not_space (hds d (by simp)))
  have hgrab : grabDigits (skipWs (ws ++ (ds ++ (rbrace :: tail)))) = (ds, rbrace :: tail) := by
    rw [hskip]
    exact grabDigits_append hds isDigitC_rbrace
  unfold matchNumTail
  rw [hgrab]
  rw [if_neg (by cases ds with | nil => exact absurd rfl hne | cons d ds' => simp)]
  show (if rbrace = rbrace then some (digitsToNat ds, tail) else none) = some (digitsToNat ds, tail)
  rw [if_pos rfl]

theorem matchPh_inst {key ws ds : List Char} (tail : List Char)
    (hws : ∀ c ∈ ws, isPySpace c = true)
    (hne : ds ≠ []) (hds : ∀ c ∈ ds, isDigitC c = true) :
    matchPh key (phInst key ws ds ++ tail) = some (digitsToNat ds, tail) := by
  have hshape : phInst key ws ds ++ tail
      = lbrace :: ((key ++ [',']) ++ (ws ++ (ds ++ (rbrace :: tail)))) := by
    simp [phInst]
  rw [hshape]
  simp only [matchPh, if_true]
  rw [List.append_assoc key [','] (ws ++ (ds ++ rbrace :: tail))]
  rw [dropPre_append key [','] ([','] ++ (ws ++ (ds ++ rbrace :: tail)))]
  show matchNumTail (ws ++ (ds ++ (rbrace :: tail))) = some (digitsToNat ds, tail)
  exact matchNumTail_inst tail hws hne hds

theorem reSub_splice {key repl : List Char} :
    ∀ pre : List Char, braceFree pre = true →
    ∀ ws ds tail : List Char, (∀ c ∈ ws, isPySpace c = true) → ds ≠ [] →
      (∀ c ∈ ds, isDigitC c = true) →
      reSub key repl (pre ++ (phInst key ws ds ++ tail))
        = pre ++ (repl ++ reSub key repl tail) := by
  intro pre
  induction pre with
  | nil =>
    intro _ ws ds tail hws hne hds
    simp only [List.nil_append]
    have hm := @matchPh_inst key ws ds tail hws hne hds
    have hshape : phInst key ws ds ++ tail
        = lbrace :: ((key ++ (',' :: (ws ++ (ds ++ [rbrace])))) ++ tail) := by
      simp [phInst]
    rw [hshape] at hm ⊢
    rw [reSub_cons_match hm]
  | cons c pre ih =>
    intro hbf ws ds tail hws hne hds
    simp only [braceFree, List.all_cons, Bool.and_eq_true] at hbf
    have hc : c ≠ lbrace := by simpa using hbf.1
    simp only [List.cons_append]
    rw [reSub_cons_none (matchPh_not_lbrace hc)]
    rw [ih hbf.2 ws ds tail hws hne hds]

theorem reSub_chunks {key repl : List Char} :
    ∀ chs (last : List Char), chunksWF chs → braceFree last = true →
      reSub key repl (chunksText key chs last) = chunksRepl repl chs last := by
  intro chs
  induction chs with
  | nil => intro last _ hlast; exact reSub_braceFree last hlast
  | cons x t ih =>
    intro last hwf hlast
    obtain ⟨pre, ws, ds⟩ := x
    have hx := hwf (pre, ws, ds) (by simp)
    show reSub key repl (pre ++ (phInst key ws ds ++ chunksText key t last)) = _
    rw [reSub_splice pre hx.1 ws ds _ hx.2.1 hx.2.2.1 hx.2.2.2]
    show pre ++ (repl ++ reSub key repl (chunksText key t last)) = _
    rw [ih last (fun y hy => hwf y (by simp [hy])) hlast]
    rfl

theorem braceFree_append {a b : List Char} (ha : braceFree a = true)
    (hb : braceFree b = true) : braceFree (a ++ b) = true := by
  simp [braceFree] at ha hb ⊢
  exact ⟨ha, hb⟩

theorem chunksRepl_braceFree {repl : List Char} (hrepl : braceFree repl = true) :
    ∀ chs (last : List Char), chunksWF chs → braceFree last = true →
      braceFree (chunksRepl repl chs last) = true := by
  intro chs
  induction chs with
  | nil => intro last _ hlast; exact hlast
  | cons x t ih =>
    intro last hwf hlast
    obtain ⟨pre, ws, ds⟩ := x
    have hx := hwf (pre, ws, ds) (by simp)
    show braceFree (pre ++ (repl ++ chunksRepl repl t last)) = true
    exact braceFree_append hx.1
      (braceFree_append hrepl (ih last (fun y hy => hwf y (by simp [hy])) hlast))

theorem digitCh_ne_lbrace (r : Nat) : digitCh r ≠ lbrace := by
  unfold digitCh
  repeat' split
  all_goals decide

theorem natStrAux_braceFree : ∀ (fuel n : Nat) (acc : List Char),
    braceFree acc = true → braceFree (natStrAux fuel n acc) = true := by
  intro fuel
  induction fuel with
  | zero => intro n acc h; exact h
  | succ fuel ih =>
    intro n acc h
    simp only [natStrAux]
    split
    · exact braceFree_cons (digitCh_ne_lbrace _) h
    · exact ih (n / 10) _ (braceFree_cons (digitCh_ne_lbrace _) h)

theorem intStr_braceFree (v : Int) : braceFree (intStr v).toList = true := by
  cases v with
  | ofNat m => exact natStrAux_braceFree _ _ _ rfl
  | negSucc m =>
    show braceFree (("-" ++ natStr (m + 1)).data) = true
    rw [String.data_append]
    exact braceFree_append (by decide) (natStrAux_braceFree _ _ _ rfl)

theorem update_counters_spec (st : BotState) :
    update_counters st =
      { st with increment_counter := st.increment_counter.map (fun v => v + 1),
                decrement_counter := st.decrement_counter.map (fun v => v - 1) } := by
  obtain ⟨sj, jobs, tmpl, mt, ic, dc, nid⟩ := st
  cases ic <;> cases dc <;> simp [update_counters]

theorem advanceN_increment : ∀ (N : Nat) (st : BotState),
    (advanceN N st).increment_counter = st.increment_counter.map (fun v => v + (N : Int)) := by
  intro N
  induction N with
  | zero => intro st; cases h : st.increment_counter <;> simp [advanceN, h]
  | succ N ih =>
    intro st
    show (advanceN N (update_counters st)).increment_counter = _
    rw [ih, update_counters_spec]
    cases st.increment_counter with
    | none => simp
    | some v =>
      simp only [Option.map_some']
      show some (v + 1 + (N : Int)) = some (v + ((N : Nat) + 1 : Nat))
      congr 1
      push_cast
      ring

theorem advanceN_decrement : ∀ (N : Nat) (st : BotState),
    (advanceN N st).decrement_counter = st.decrement_counter.map (fun v => v - (N : Int)) := by
  intro N
  induction N with
  | zero => intro st; cases h : st.decrement_counter <;> simp [advanceN, h]
  | succ N ih =>
    intro st
    show (advanceN N (update_counters st)).decrement_counter = _
    rw [ih, update_counters_spec]
    cases st.decrement_counter with
    | none => simp
    | some v =>
      simp only [Option.map_some']
      show some (v - 1 - (N : Int)) = some (v - ((N : Nat) + 1 : Nat))
      congr 1
      push_cast
      ring

theorem reSearch_inst {key : List Char} :
    ∀ pre : List Char, braceFree pre = true →
    ∀ ws ds tail : List Char, (∀ c ∈ ws, isPySpace c = true) → ds ≠ [] →
      (∀ c ∈ ds, isDigitC c = true) →
      reSearch key (pre ++ (phInst key ws ds ++ tail)) = some (digitsToNat ds) := by
  intro pre
  induction pre with
  | nil =>
    intro _ ws ds tail hws hne hds
    have hm := @matchPh_inst key ws ds tail hws hne hds
    have hshape : phInst key ws ds ++ tail
        = lbrace :: ((key ++ (',' :: (ws ++ (ds ++ [rbrace])))) ++ tail) := by
      simp [phInst]
    rw [hshape] at hm
    rw [List.nil_append, hshape]
    simp only [reSearch, List.append_eq]
    rw [hm]
  | cons c pre ih =>
    intro hbf ws ds tail hws hne hds
    simp only [braceFree, List.all_cons, Bool.and_eq_true] at hbf
    have hc : c ≠ lbrace := by simpa using hbf.1
    simp only [List.cons_append, reSearch, matchPh_not_lbrace hc]
    exact ih hbf.2 ws ds tail hws hne hds

theorem parseTimeText_some_bounds {text : String} {hh mm : Int}
    (hp : parseTimeText text = some (hh, mm)) :
    0 ≤ hh ∧ hh ≤ 23 ∧ 0 ≤ mm ∧ mm ≤ 59 := by
  unfold parseTimeText at hp
  split at hp
  · rename_i h m heq
    split at hp
    · rename_i hcond
      injection hp with hp2
      rw [Prod.mk.injEq] at hp2
      obtain ⟨rfl, rfl⟩ := hp2
      simp only [Bool.and_eq_true, decide_eq_true_eq] at hcond
      exact ⟨hcond.1.1.1, hcond.1.1.2, hcond.1.2, hcond.2⟩
    · exact absurd hp (by simp)
  · exact absurd hp (by simp)

theorem parseTimeText_of_fields {text : String} {a b : List Char} {hh mm : Int}
    (hsplit : splitOnColon text.toList = [a, b])
    (ha : pyInt a = some hh) (hb : pyInt b = some mm)
    (h1 : 0 ≤ hh) (h2 : hh ≤ 23) (h3 : 0 ≤ mm) (h4 : mm ≤ 59) :
    parseTimeText text = some (hh, mm) := by
  unfold parseTimeText
  rw [hsplit]
  simp only [List.map_cons, List.map_nil, ha, hb]
  rw [if_pos]
  simp only [Bool.and_eq_true, decide_eq_true_eq]
  exact ⟨⟨⟨h1, h2⟩, h3⟩, h4⟩

theorem parse_custom_message_mk (st : BotState) (l : List Char) :
    parse_custom_message st ⟨l⟩ =
      ⟨reSubOpt decKey st.decrement_counter (reSubOpt incKey st.increment_counter l)⟩ := by
  cases hi : st.increment_counter <;> cases hd : st.decrement_counter <;>
    simp [parse_custom_message, reSubOpt, hi, hd]

theorem reSubOpt_count_zero {key cs : List Char} {o : Option Int}
    (h : reCount key cs = 0) : reSubOpt key o cs = cs := by
  cases o with
  | none => rfl
  | some v => exact reSub_of_count_zero h

theorem reSubOpt_braceFree {key cs : List Char} {o : Option Int}
    (h : braceFree cs = true) : reSubOpt key o cs = cs := by
  cases o with
  | none => rfl
  | some v => exact reSub_braceFree cs h

theorem space_ne_lbrace {c : Char} (h : isPySpace c = true) : c ≠ lbrace := by
  intro heq
  subst heq
  exact absurd h (by decide)

theorem digit_ne_lbrace {c : Char} (h : isDigitC c = true) : c ≠ lbrace := by
  intro heq
  subst heq
  exact absurd h (by decide)

theorem braceFree_of_forall {cs : List Char} (h : ∀ c ∈ cs, c ≠ lbrace) :
    braceFree cs = true := by
  induction cs with
  | nil => rfl
  | cons c cs ih => exact braceFree_cons (h c (by simp)) (ih fun x hx => h x (by simp [hx]))

theorem phInst_tail_braceFree {key ws ds : List Char} (hkey : braceFree key = true)
    (hws : ∀ c ∈ ws, isPySpace c = true) (hds : ∀ c ∈ ds, isDigitC c = true) :
    braceFree (key ++ (',' :: (ws ++ (ds ++ [rbrace])))) = true := by
  refine braceFree_append hkey ?_
  refine braceFree_cons (by decide) ?_
  refine braceFree_append (braceFree_of_forall fun c hc => space_ne_lbrace (hws c hc)) ?_
  refine braceFree_append (braceFree_of_forall fun c hc => digit_ne_lbrace (hds c hc)) ?_
  decide

theorem reSub_bf_front {key repl : List Char} :
    ∀ pre, braceFree pre = true →
      ∀ rest, reSub key repl (pre ++ rest) = pre ++ reSub key repl rest := by
  intro pre
  induction pre with
  | nil => intro _ rest; rfl
  | cons c pre ih =>
    intro hbf rest
    simp only [braceFree, List.all_cons, Bool.and_eq_true] at hbf
    have hc : c ≠ lbrace := by simpa using hbf.1
    simp only [List.cons_append]
    rw [reSub_cons_none (matchPh_not_lbrace hc)]
    rw [ih hbf.2 rest]

theorem reSub_inst_head {key repl ws ds : List Char}
    (hws : ∀ c ∈ ws, isPySpace c = true) (hne : ds ≠ [])
    (hds : ∀ c ∈ ds, isDigitC c = true) (tail : List Char) :
    reSub key repl (phInst key ws ds ++ tail) = repl ++ reSub key repl tail := by
  have h := @reSub_splice key repl [] rfl ws ds tail hws hne hds
  simpa using h

theorem reSub_other_inst {k kx repl ws ds : List Char}
    (hm : ∀ xs, dropPre (k ++ [',']) (kx ++ xs) = none)
    (hkx : braceFree kx = true)
    (hws : ∀ c ∈ ws, isPySpace c = true) (hds : ∀ c ∈ ds, isDigitC c = true) :
    ∀ rest, reSub k repl (phInst kx ws ds ++ rest)
      = phInst kx ws ds ++ reSub k repl rest := by
  intro rest
  have hshape : phInst kx ws ds ++ rest
      = lbrace :: ((kx ++ (',' :: (ws ++ (ds ++ [rbrace])))) ++ rest) := by
    simp [phInst]
  have hmm : matchPh k (lbrace :: ((kx ++ (',' :: (ws ++ (ds ++ [rbrace])))) ++ rest))
      = none := by
    simp only [matchPh, if_true]
    rw [List.append_assoc kx (',' :: (ws ++ (ds ++ [rbrace]))) rest]
    rw [hm ((',' :: (ws ++ (ds ++ [rbrace]))) ++ rest)]
  rw [hshape, reSub_cons_none hmm]
  rw [reSub_bf_front _ (phInst_tail_braceFree hkx hws hds) rest]
  simp [phInst]

theorem segWF_phParts {ws ds : List Char}
    (h : (ws.all isPySpace && !ds.isEmpty && ds.all isDigitC) = true) :
    (∀ c ∈ ws, isPySpace c = true) ∧ ds ≠ [] ∧ (∀ c ∈ ds, isDigitC c = true) := by
  simp only [Bool.and_eq_true] at h
  obtain ⟨⟨hw, hne⟩, hd⟩ := h
  refine ⟨?_, ?_, ?_⟩
  · simpa only [List.all_eq_true] using hw
  · cases ds with
    | nil => simp at hne
    | cons a t => simp
  · simpa only [List.all_eq_true] using hd

theorem segsSub_wf {repl : List Char} (hrepl : braceFree repl = true) (b : Bool) :
    ∀ segs, segsWFb segs = true → segsWFb (segsSub b repl segs) = true := by
  intro segs
  induction segs with
  | nil => intro _; rfl
  | cons s t ih =>
    intro hwf
    simp only [segsWFb, List.all_cons, Bool.and_eq_true] at hwf
    cases s with
    | lit cs =>
      show segsWFb (TmplSeg.lit cs :: segsSub b repl t) = true
      simp only [segsWFb, List.all_cons, Bool.and_eq_true]
      exact ⟨hwf.1, ih hwf.2⟩
    | incPh ws ds =>
      show segsWFb ((if b then TmplSeg.lit repl else TmplSeg.incPh ws ds)
          :: segsSub b repl t) = true
      simp only [segsWFb, List.all_cons, Bool.and_eq_true]
      refine ⟨?_, ih hwf.2⟩
      cases b
      · simpa using hwf.1
      · simpa [segWF] using hrepl
    | decPh ws ds =>
      show segsWFb ((if b then TmplSeg.decPh ws ds else TmplSeg.lit repl)
          :: segsSub b repl t) = true
      simp only [segsWFb, List.all_cons, Bool.and_eq_true]
      refine ⟨?_, ih hwf.2⟩
      cases b
      · simpa [segWF] using hrepl
      · simpa using hwf.1

theorem reSub_segsText_inc (repl : List Char) :
    ∀ segs, segsWFb segs = true →
      reSub incKey repl (segsText segs) = segsText (segsSub true repl segs) := by
  intro segs
  induction segs with
  | nil => intro _; rfl
  | cons s t ih =>
    intro hwf
    simp only [segsWFb, List.all_cons, Bool.and_eq_true] at hwf
    have ht : segsWFb t = true := hwf.2
    cases s with
    | lit cs =>
      show reSub incKey repl (cs ++ segsText t) = cs ++ segsText (segsSub true repl t)
      rw [reSub_bf_front cs hwf.1 (segsText t), ih ht]
    | incPh ws ds =>
      obtain ⟨hws, hne, hds⟩ := segWF_phParts hwf.1
      show reSub incKey repl (phInst incKey ws ds ++ segsText t)
          = repl ++ segsText (segsSub true repl t)
      rw [reSub_inst_head hws hne hds (segsText t), ih ht]
    | decPh ws ds =>
      obtain ⟨hws, hne, hds⟩ := segWF_phParts hwf.1
      show reSub incKey repl (phInst decKey ws ds ++ segsText t)
          = phInst decKey ws ds ++ segsText (segsSub true repl t)
      have hmm : ∀ xs, dropPre (incKey ++ [',']) (decKey ++ xs) = none := fun xs => rfl
      rw [reSub_other_inst hmm (by decide) hws hds (segsText t), ih ht]

theorem reSub_segsText_dec (repl : List Char) :
    ∀ segs, segsWFb segs = true →
      reSub decKey repl (segsText segs) = segsText (segsSub false repl segs) := by
  intro segs
  induction segs with
  | nil => intro _; rfl
  | cons s t ih =>
    intro hwf
    simp only [segsWFb, List.all_cons, Bool.and_eq_true] at hwf
    have ht : segsWFb t = true := hwf.2
    cases s with
    | lit cs =>
      show reSub decKey repl (cs ++ segsText t) = cs ++ segsText (segsSub false repl t)
      rw [reSub_bf_front cs hwf.1 (segsText t), ih ht]
    | incPh ws ds =>
      obtain ⟨hws, hne, hds⟩ := segWF_phParts hwf.1
      show reSub decKey repl (phInst incKey ws ds ++ segsText t)
          = phInst incKey ws ds ++ segsText (segsSub false repl t)
      have hmm : ∀ xs, dropPre (decKey ++ [',']) (incKey ++ xs) = none := fun xs => rfl
      rw [reSub_other_inst hmm (by decide) hws hds (segsText t), ih ht]
    | decPh ws ds =>
      obtain ⟨hws, hne, hds⟩ := segWF_phParts hwf.1
      show reSub decKey repl (phInst decKey ws ds ++ segsText t)
          = repl ++ segsText (segsSub false repl t)
      rw [reSub_inst_head hws hne hds (segsText t), ih ht]

theorem segsRender_none_none : ∀ segs, segsRender none none segs = segsText segs := by
  intro segs
  induction segs with
  | nil => rfl
  | cons s t ih => cases s <;> simp [segsRender, segsText, ih]

theorem segsRender_some_none (v : Int) :
    ∀ segs, segsRender (some v) none segs
      = segsText (segsSub true (intStr v).toList segs) := by
  intro segs
  induction segs with
  | nil => rfl
  | cons s t ih => cases s <;> simp [segsRender, segsText, segsSub, ih]

theorem segsRender_none_some (w : Int) :
    ∀ segs, segsRender none (some w) segs
      = segsText (segsSub false (intStr w).toList segs) := by
  intro segs
  induction segs with
  | nil => rfl
  | cons s t ih => cases s <;> simp [segsRender, segsText, segsSub, ih]

theorem segsRender_some_some (v w : Int) :
    ∀ segs, segsRender (some v) (some w) segs
      = segsText (segsSub false (intStr w).toList (segsSub true (intStr v).toList segs)) := by
  intro segs
  induction segs with
  | nil => rfl
  | cons s t ih => cases s <;> simp [segsRender, segsText, segsSub, ih]

/-- Claim C1, counterexample: with a job already installed and active template
A, the AwaitingMessage step (set_message) from the authorized user immediately
changes the process-wide template — the installed job's next firing renders the
new text B — so the active template after set_message is not what it was before
that step, contradicting the claim that only the yes-confirmation commits. -/
theorem C1_counterexample :
    (set_message ALLOWED_USERNAME "B" stWithJob).state.message_template ≠
        stWithJob.message_template ∧
      (fire_daily (set_message ALLOWED_USERNAME "B" stWithJob).state jobA).2.text = "B" := by
  decide

/-- Claim C1 (amended): set_message commits the entered template and the seeded
counters to the process-wide state immediately, leaving the scheduled job and
queue untouched; the yes-confirmation itself leaves template and counters
unchanged and only installs the job; a no answer and cancel leave the whole
state unchanged (they do not restore pre-conversation values). -/
theorem C1_amended (u t : String) (chat : Int) (st : BotState) (h : check_user u = true) :
    ((set_message u t st).state.message_template = t ∧
      (set_message u t st).state.scheduled_job = st.scheduled_job ∧
      (set_message u t st).state.jobs = st.jobs) ∧
    ((confirm u "yes" chat st).state.message_template = st.message_template ∧
      (confirm u "yes" chat st).state.increment_counter = st.increment_counter ∧
      (confirm u "yes" chat st).state.decrement_counter = st.decrement_counter) ∧
    (confirm u "no" chat st).state = st ∧
    (cancel u st).state = st := by
  have hyes : (lowerStr "yes" == "yes") = true := by decide
  have hno1 : (lowerStr "no" == "yes") = false := by decide
  have hno2 : (lowerStr "no" == "no") = true := by decide
  refine ⟨⟨?_, ?_, ?_⟩, ⟨?_, ?_, ?_⟩, ?_, ?_⟩ <;>
    simp [set_message, confirm, cancel, h, hyes, hno1, hno2]

/-- Claim C1, witness of the amended statement at a concrete input. -/
theorem C1_amended_witness :
    (set_message ALLOWED_USERNAME "B" stWithJob).state.message_template = "B" :=
  (C1_amended ALLOWED_USERNAME "B" 5 stWithJob (by decide)).1.1

/-- Claim C2, counterexample: re-seeding with the template hello, which contains
no placeholder pattern, leaves the previously active increment counter at 5
instead of clearing it to None, contradicting re-seeding fully replaces prior
state. -/
theorem C2_counterexample :
    reSearch incKey ("hello" : String).toList = none ∧
      (set_message ALLOWED_USERNAME "hello" stInc5).state.increment_counter = some 5 := by
  decide

/-- Claim C2 (amended): seeding sets each counter to the numeric argument of the
first occurrence of its pattern when the pattern is present; a kind whose
pattern is absent leaves that counter unchanged (a previously active counter
stays active with its old value — it is not cleared). -/
theorem C2_amended (u t : String) (st : BotState) (h : check_user u = true) :
    ((set_message u t st).state.increment_counter =
        (match reSearch incKey t.toList with
         | some n => some (Int.ofNat n)
         | none => st.increment_counter)) ∧
    ((set_message u t st).state.decrement_counter =
        (match reSearch decKey t.toList with
         | some n => some (Int.ofNat n)
         | none => st.decrement_counter)) ∧
    (∀ pre ws ds tail : List Char, braceFree pre = true →
      (∀ c ∈ ws, isPySpace c = true) → ds ≠ [] → (∀ c ∈ ds, isDigitC c = true) →
      t.toList = pre ++ (phInst incKey ws ds ++ tail) →
      (set_message u t st).state.increment_counter = some (Int.ofNat (digitsToNat ds))) := by
  refine ⟨by simp [set_message, h], by simp [set_message, h], ?_⟩
  intro pre ws ds tail hpre hws hne hds hteq
  have hs := @reSearch_inst incKey pre hpre ws ds tail hws hne hds
  rw [← hteq] at hs
  have hs2 : reSearch incKey t.data = some (digitsToNat ds) := hs
  simp [set_message, h, hs2]

/-- Claim C2, witness of the amended statement at a concrete input. -/
theorem C2_amended_witness :
    (set_message ALLOWED_USERNAME "hello" stInc5).state.increment_counter =
      (match reSearch incKey ("hello" : String).toList with
       | some n => some (Int.ofNat n)
       | none => stInc5.increment_counter) :=
  (C2_amended ALLOWED_USERNAME "hello" stInc5 (by decide)).1

/-- Claim C3: every firing — a real daily callback (jc present) or a manual
trigger (jc absent) — advances the counters once, renders the current template
against the post-advance counter state, and hands exactly one message with the
rendered text to the gateway, targeted at the job's bound chat or, for manual
triggers, the invoking chat; and in the end-to-end example with template
Day increment-1 confirmed at 09:00, the first manual trigger delivers Day 2 and
a second delivers Day 3. -/
theorem C3_firing_sequence :
    (∀ (st : BotState) (jc : Option Int) (c : Int),
      send_scheduled_message st jc c =
        (update_counters st,
          ⟨(match jc with | some x => x | none => c),
           parse_custom_message (update_counters st) st.message_template⟩)) ∧
    demoAfterConfirm.scheduled_job = some ⟨0, some (9, 0), 5⟩ ∧
    (trigger_job ALLOWED_USERNAME 5 demoAfterConfirm).sent = [⟨5, "Day 2"⟩] ∧
    (trigger_job ALLOWED_USERNAME 5
        (trigger_job ALLOWED_USERNAME 5 demoAfterConfirm).state).sent = [⟨5, "Day 3"⟩] := by
  refine ⟨?_, by decide, by decide, by decide⟩
  intro st jc c
  have ht : (update_counters st).message_template = st.message_template := by
    rw [update_counters_spec]
  simp [send_scheduled_message, ht]

/-- Claim C4: a sender other than the allow-listed identity gets the rejection
reply from every entry point, no state component changes, nothing is delivered,
and the conversation handlers return the terminal END state. -/
theorem C4_unauthorized (u text : String) (chat : Int) (st : BotState)
    (h : u ≠ ALLOWED_USERNAME) :
    create_scheduled_message u st = ⟨st, [AUTH_REJECT], END_CONV⟩ ∧
    set_message u text st = ⟨st, [AUTH_REJECT], END_CONV⟩ ∧
    set_time u text st = ⟨st, [AUTH_REJECT], END_CONV⟩ ∧
    confirm u text chat st = ⟨st, [AUTH_REJECT], END_CONV⟩ ∧
    cancel u st = ⟨st, [AUTH_REJECT], END_CONV⟩ ∧
    stop_scheduled_message u st = ⟨st, [AUTH_REJECT], []⟩ ∧
    trigger_job u chat st = ⟨st, [AUTH_REJECT], []⟩ := by
  have hc : check_user u = false := by
    unfold check_user
    exact beq_eq_false_iff_ne.mpr h
  refine ⟨?_, ?_, ?_, ?_, ?_, ?_, ?_⟩ <;>
    simp [create_scheduled_message, set_message, set_time, confirm, cancel,
      stop_scheduled_message, trigger_job, hc]

/-- Claim C4, witness at a concrete unauthorized sender. -/
theorem C4_unauthorized_witness :
    trigger_job "mallory" 7 stWithJob = ⟨stWithJob, [AUTH_REJECT], []⟩ :=
  (C4_unauthorized "mallory" "x" 7 stWithJob (by decide)).2.2.2.2.2.2

/-- Claim C5: from any state satisfying the at-most-one-job invariant, a
yes-confirmation removes the existing job (if any) from the queue and registers
exactly one new job carrying the current time and the invoking chat, preserving
the invariant; after two consecutive installs exactly the second job — with the
second call's time and target — is in the queue, and the first is not. -/
theorem C5_install_replaces (u : String) (c1 c2 : Int) (t1 t2 : Option (Int × Int))
    (st : BotState) (h : check_user u = true) (hinv : oneJobInv st) :
    (confirm u "yes" c1 { st with message_time := t1 }).state.jobs
        = [⟨st.nextJobId, t1, c1⟩] ∧
    (confirm u "yes" c1 { st with message_time := t1 }).state.scheduled_job
        = some ⟨st.nextJobId, t1, c1⟩ ∧
    oneJobInv (confirm u "yes" c1 { st with message_time := t1 }).state ∧
    (confirm u "yes" c2
        { (confirm u "yes" c1 { st with message_time := t1 }).state with
            message_time := t2 }).state.jobs = [⟨st.nextJobId + 1, t2, c2⟩] ∧
    (⟨st.nextJobId, t1, c1⟩ : Job) ∉
      (confirm u "yes" c2
        { (confirm u "yes" c1 { st with message_time := t1 }).state with
            message_time := t2 }).state.jobs := by
  have hyes : (lowerStr "yes" == "yes") = true := by decide
  unfold oneJobInv at hinv
  have e1 : (confirm u "yes" c1 { st with message_time := t1 }).state =
      { st with message_time := t1, scheduled_job := some ⟨st.nextJobId, t1, c1⟩, jobs := [⟨st.nextJobId, t1, c1⟩], nextJobId := st.nextJobId + 1 } := by
    cases hsj : st.scheduled_job with
    | none =>
      have hj : st.jobs = [] := by rw [hinv, hsj]; rfl
      simp [confirm, h, hyes, hsj, hj]
    | some j =>
      have hj : st.jobs = [j] := by rw [hinv, hsj]; rfl
      simp [confirm, h, hyes, hsj, hj, List.filter]
  have e2 : (confirm u "yes" c2
      { (confirm u "yes" c1 { st with message_time := t1 }).state with
          message_time := t2 }).state =
      { st with message_time := t2, scheduled_job := some ⟨st.nextJobId + 1, t2, c2⟩, jobs := [⟨st.nextJobId + 1, t2, c2⟩], nextJobId := st.nextJobId + 2 } := by
    rw [e1]
    simp [confirm, h, hyes, List.filter]
  refine ⟨by rw [e1], by rw [e1], ?_, by rw [e2], ?_⟩
  · unfold oneJobInv
    rw [e1]
    rfl
  · rw [e2]
    simp [Job.mk.injEq]

/-- Claim C5, witness at a concrete invariant-satisfying state. -/
theorem C5_install_replaces_witness :
    (confirm ALLOWED_USERNAME "yes" 1 { initialState with message_time := some (9, 0) }).state.jobs
      = [⟨initialState.nextJobId, some (9, 0), 1⟩] :=
  (C5_install_replaces ALLOWED_USERNAME 1 2 (some (9, 0)) (some (10, 0)) initialState
    (by decide) rfl).1

/-- Claim C6: in AwaitingTime, a text whose colon-split yields two int()-parseable
fields with the hour in 0..23 and the minute in 0..59 is stored as the time, the
bot replies with the prompt embedding a preview rendered from the just-seeded
counters, and the conversation moves to CONFIRM; any text the chain rejects
(reported as ValueError) produces a re-prompt and leaves the state and the
conversation position SET_TIME unchanged — the conversation is not aborted. -/
theorem C6_set_time (u text : String) (st : BotState) (h : check_user u = true) :
    (∀ hh mm : Int, parseTimeText text = some (hh, mm) →
      (0 ≤ hh ∧ hh ≤ 23 ∧ 0 ≤ mm ∧ mm ≤ 59) ∧
      set_time u text st =
        ⟨{ st with message_time := some (hh, mm) },
          [timePrompt hh mm (parse_custom_message st st.message_template)], CONFIRM⟩) ∧
    (parseTimeText text = none →
      set_time u text st =
        ⟨st, ["Invalid time format. Please use HH:MM (24-hour format)."], SET_TIME⟩) ∧
    (∀ (a b : List Char) (hh mm : Int), splitOnColon text.toList = [a, b] →
      pyInt a = some hh → pyInt b = some mm →
      0 ≤ hh → hh ≤ 23 → 0 ≤ mm → mm ≤ 59 →
      parseTimeText text = some (hh, mm)) := by
  refine ⟨?_, ?_, ?_⟩
  · intro hh mm hp
    refine ⟨parseTimeText_some_bounds hp, ?_⟩
    simp [set_time, h, hp]
  · intro hp
    simp [set_time, h, hp]
  · intro a b hh mm hs ha hb h1 h2 h3 h4
    exact parseTimeText_of_fields hs ha hb h1 h2 h3 h4

/-- Claim C6, witness: the invalid input 99:99 re-prompts and stays in SET_TIME. -/
theorem C6_set_time_witness :
    set_time ALLOWED_USERNAME "99:99" initialState =
      ⟨initialState, ["Invalid time format. Please use HH:MM (24-hour format)."], SET_TIME⟩ :=
  (C6_set_time ALLOWED_USERNAME "99:99" initialState (by decide)).2.1 (by decide)

/-- Claim C7: render is a pure function of template and counters; a template the
substitution scan finds no placeholder occurrence in is returned unchanged for
every counter state; and for every template decomposed into brace-free literal
runs and placeholder instances of either kind, mixed arbitrarily, and for every
combination of counter activity: literal text passes through, every occurrence
of a kind whose counter is inactive (None) stays in the output as its own
literal text, and an active counter's decimal value replaces every occurrence
of that kind's pattern. -/
theorem C7_render (st : BotState) (tmpl : String) :
    (reCount incKey tmpl.toList = 0 → reCount decKey tmpl.toList = 0 →
      parse_custom_message st tmpl = tmpl) ∧
    (st.increment_counter = none → reCount decKey tmpl.toList = 0 →
      parse_custom_message st tmpl = tmpl) ∧
    (st.decrement_counter = none → reCount incKey tmpl.toList = 0 →
      parse_custom_message st tmpl = tmpl) ∧
    (∀ segs, segsWFb segs = true →
      parse_custom_message st ⟨segsText segs⟩
        = ⟨segsRender st.increment_counter st.decrement_counter segs⟩) := by
  obtain ⟨l⟩ := tmpl
  refine ⟨?_, ?_, ?_, ?_⟩
  · intro h1 h2
    have h1x : reCount incKey l = 0 := h1
    have h2x : reCount decKey l = 0 := h2
    rw [parse_custom_message_mk]
    exact congrArg String.mk (by rw [reSubOpt_count_zero h1x, reSubOpt_count_zero h2x])
  · intro hi h2
    have h2x : reCount decKey l = 0 := h2
    rw [parse_custom_message_mk, hi]
    exact congrArg String.mk (reSubOpt_count_zero h2x)
  · intro hd h1
    have h1x : reCount incKey l = 0 := h1
    rw [parse_custom_message_mk, hd]
    show (⟨reSubOpt incKey st.increment_counter l⟩ : String) = ⟨l⟩
    exact congrArg String.mk (reSubOpt_count_zero h1x)
  · intro segs hwf
    rw [parse_custom_message_mk]
    refine congrArg String.mk ?_
    cases hi : st.increment_counter with
    | none =>
      cases hd : st.decrement_counter with
      | none =>
        show segsText segs = segsRender none none segs
        exact (segsRender_none_none segs).symm
      | some w =>
        show reSub decKey (intStr w).toList (segsText segs) = segsRender none (some w) segs
        rw [reSub_segsText_dec _ segs hwf, segsRender_none_some]
    | some v =>
      cases hd : st.decrement_counter with
      | none =>
        show reSub incKey (intStr v).toList (segsText segs) = segsRender (some v) none segs
        rw [reSub_segsText_inc _ segs hwf, segsRender_some_none]
      | some w =>
        show reSub decKey (intStr w).toList
            (reSub incKey (intStr v).toList (segsText segs))
          = segsRender (some v) (some w) segs
        rw [reSub_segsText_inc _ segs hwf]
        rw [reSub_segsText_dec _ _ (segsSub_wf (intStr_braceFree v) true segs hwf)]
        rw [segsRender_some_some]

/-- Claim C7, witness: a mixed template with an active increment counter and an
inactive decrement counter renders with every increment instance replaced by
the counter value and every decrement instance left as literal text. -/
theorem C7_render_witness :
    parse_custom_message stInc5 ⟨segsText demoSegs⟩
      = ⟨segsRender (some 5) none demoSegs⟩ :=
  (C7_render stInc5 "").2.2.2 demoSegs (by decide)

/-- Claim C8: seeding a template whose first increment occurrence carries k sets
the increment counter to k, and N advances leave it at k plus N; a seeded
decrement counter ends at its seed minus N, an integer that may go below zero
with no lower bound; an inactive counter is never changed by advance. -/
theorem C8_counters (u t : String) (st : BotState) (k j N : Nat) (h : check_user u = true) :
    (reSearch incKey t.toList = some k →
      (advanceN N (set_message u t st).state).increment_counter
        = some ((k : Int) + (N : Int))) ∧
    (reSearch decKey t.toList = some j →
      (advanceN N (set_message u t st).state).decrement_counter
        = some ((j : Int) - (N : Int))) ∧
    (st.increment_counter = none → (advanceN N st).increment_counter = none) ∧
    (st.decrement_counter = none → (advanceN N st).decrement_counter = none) := by
  refine ⟨?_, ?_, ?_, ?_⟩
  · intro hk
    have hk2 : reSearch incKey t.data = some k := hk
    have hseed : (set_message u t st).state.increment_counter = some (k : Int) := by
      simp [set_message, h, hk2]
    rw [advanceN_increment, hseed]
    rfl
  · intro hj
    have hj2 : reSearch decKey t.data = some j := hj
    have hseed : (set_message u t st).state.decrement_counter = some (j : Int) := by
      simp [set_message, h, hj2]
    rw [advanceN_decrement, hseed]
    rfl
  · intro hn
    rw [advanceN_increment, hn]
    rfl
  · intro hn
    rw [advanceN_decrement, hn]
    rfl

/-- Claim C8, witness: seed 5, three advances, counter 8. -/
theorem C8_counters_witness :
    (advanceN 3 (set_message ALLOWED_USERNAME (phText "increment" 5) initialState).state).increment_counter
      = some ((5 : Int) + (3 : Int)) :=
  (C8_counters ALLOWED_USERNAME (phText "increment" 5) initialState 5 0 3 (by decide)).1
    (by decide)

/-- Claim C9: an authorized stop with no active job replies that there is no
active scheduled message, without raising, and every state component is
unchanged; with an active job it removes that job from the queue, clears the
handle, and reports that the scheduled message was stopped. -/
theorem C9_stop (u : String) (st : BotState) (h : check_user u = true) :
    (st.scheduled_job = none →
      stop_scheduled_message u st = ⟨st, ["There is no active scheduled message."], []⟩) ∧
    (∀ j : Job, st.scheduled_job = some j →
      stop_scheduled_message u st =
        ⟨{ st with scheduled_job := none, jobs := st.jobs.filter (fun x => x.id ≠ j.id) },
          ["Scheduled message has been stopped."], []⟩ ∧
      (oneJobInv st → (stop_scheduled_message u st).state.jobs = [])) := by
  constructor
  · intro hn
    simp [stop_scheduled_message, h, hn]
  · intro j hj
    constructor
    · simp [stop_scheduled_message, h, hj]
    · intro hinv
      unfold oneJobInv at hinv
      rw [hj] at hinv
      have hjobs : st.jobs = [j] := hinv
      simp [stop_scheduled_message, h, hj, hjobs, List.filter]

/-- Claim C9, witness: stop with no active job leaves the state unchanged. -/
theorem C9_stop_witness :
    stop_scheduled_message ALLOWED_USERNAME initialState =
      ⟨initialState, ["There is no active scheduled message."], []⟩ :=
  (C9_stop ALLOWED_USERNAME initialState (by decide)).1 (by decide)

/-- Claim C10: an authorized manual trigger runs the firing sequence
unconditionally — it never inspects whether a job is installed — mutating the
counters exactly as a real firing would (both equal update_counters) and
delivering the render of the current template; in the initial state it advances
nothing, renders the empty template, and delivers the empty string to the
invoking chat. -/
theorem C10_trigger (u : String) (chat : Int) (st : BotState) (h : check_user u = true) :
    trigger_job u chat st =
      ⟨(send_scheduled_message st none chat).1, ["Scheduled job triggered manually."],
        [(send_scheduled_message st none chat).2]⟩ ∧
    (send_scheduled_message st none chat).1 = update_counters st ∧
    (∀ j : Job, (fire_daily st j).1 = update_counters st) ∧
    trigger_job u chat initialState =
      ⟨initialState, ["Scheduled job triggered manually."], [⟨chat, ""⟩]⟩ := by
  refine ⟨?_, rfl, fun j => rfl, ?_⟩
  · simp [trigger_job, h]
  · simp [trigger_job, h, send_scheduled_message, update_counters, parse_custom_message,
      initialState]

/-- Claim C10, witness: manual trigger in the initial state delivers the empty
string to the invoking chat and leaves the state unchanged. -/
theorem C10_trigger_witness :
    trigger_job ALLOWED_USERNAME 7 initialState =
      ⟨initialState, ["Scheduled job triggered manually."], [⟨7, ""⟩]⟩ :=
  (C10_trigger ALLOWED_USERNAME 7 stWithJob (by decide)).2.2.2

end TelegramBot

